import Mathlib

/-!
Verification of the opening-book depth simulator (`analyzer.py`).

The file gives a shallow embedding of the move-selection, retry and
game-loop logic of the script and proves theorems settling the claims of
the specification.  External collaborators (the chess rules engine and the
remote opening-explorer HTTP service) are modelled as oracle parameters:

* the database is a function from a query profile and a FEN string to the
  parsed `moves` list (or a terminal query failure);
* the rules engine is a record of functions for FEN parsing, move
  application and SAN rendering, with the documented behaviour of
  `push` on the side-to-move flag and the full-move number made explicit.

Randomness (`random.choices`) is modelled by an explicit integer draw
passed as a parameter; the game loop consumes a stream of such draws.
-/

/-- A candidate move as returned by the opening-explorer database: a UCI
move string together with white-win, black-win and draw game counts. -/
structure CandidateMove where
  uci : String
  white : ℕ
  black : ℕ
  draws : ℕ
deriving DecidableEq

/-- Total game count of one candidate, `white + black + draws`: the weight
used by `pick_random` and the per-move contribution summed by
`out_of_master_book`. -/
def moveCount (m : CandidateMove) : ℕ :=
  m.white + m.black + m.draws

/-- Index chosen by the cumulative-weight bisection inside
`random.choices`: the first index whose cumulative weight strictly exceeds
the draw `r`. -/
def choiceIndex : List ℕ → ℕ → ℕ
  | [], _ => 0
  | w :: ws, r => if r < w then 0 else choiceIndex ws (r - w) + 1

/-- Shallow embedding of `random.choices(population, weights=weights)[0]`
for a single draw.  The library call draws a real uniformly from
`[0, total)`; the draw is modelled by the integer parameter `r`, reduced
mod the total so that it always lies in range.  When the total of the
weights is zero, `random.choices` raises
`ValueError: Total of weights must be greater than zero`; that outcome is
modelled as `none`. -/
def randomChoices1 {α : Type} (population : List α) (weights : List ℕ) (r : ℕ) : Option α :=
  let total := weights.sum
  if total = 0 then none
  else population.get? (choiceIndex weights (r % total))

/-- `pick_random` from `analyzer.py`: weighted random selection among the
explorer moves, each weighted by its total game count. -/
def pick_random (exp_moves : List CandidateMove) (r : ℕ) : Option CandidateMove :=
  let moves := exp_moves
  let counts := exp_moves.map moveCount
  randomChoices1 moves counts r

/-- `pick_top` from `analyzer.py`: the first element of the candidate list
(`exp_moves[0]`; the out-of-range case is `none` and is never reached from
`get_move`, which checks for emptiness first). -/
def pick_top (exp_moves : List CandidateMove) : Option CandidateMove :=
  exp_moves.head?

lemma choiceIndex_lt_length (ws : List ℕ) (r : ℕ) (h : r < ws.sum) :
    choiceIndex ws r < ws.length := by
  induction ws generalizing r with
  | nil => simp at h
  | cons w ws ih =>
    simp only [choiceIndex]
    split
    · simp
    · have hr : r - w < ws.sum := by
        simp only [List.sum_cons] at h
        omega
      simpa using ih (r - w) hr

lemma choiceIndex_get_pos (ws : List ℕ) (r w' : ℕ) (h : r < ws.sum)
    (hg : ws.get? (choiceIndex ws r) = some w') : 0 < w' := by
  induction ws generalizing r with
  | nil => simp at h
  | cons w ws ih =>
    simp only [choiceIndex] at hg
    by_cases hrw : r < w
    · rw [if_pos hrw] at hg
      simp only [List.get?, Option.some.injEq] at hg
      omega
    · rw [if_neg hrw] at hg
      simp only [List.get?] at hg
      have hr : r - w < ws.sum := by
        simp only [List.sum_cons] at h
        omega
      exact ih (r - w) hr hg

lemma card_choiceIndex (ws : List ℕ) (i : ℕ) :
    ((Finset.range ws.sum).filter (fun r => choiceIndex ws r = i)).card = ws.getD i 0 := by
  induction ws generalizing i with
  | nil => simp [choiceIndex]
  | cons w ws ih =>
    cases i with
    | zero =>
      have hset : (Finset.range (w :: ws).sum).filter (fun r => choiceIndex (w :: ws) r = 0)
          = Finset.range w := by
        ext r
        simp only [Finset.mem_filter, Finset.mem_range, List.sum_cons, choiceIndex]
        constructor
        · rintro ⟨_, hc⟩
          by_contra hrw
          rw [if_neg hrw] at hc
          omega
        · intro hrw
          exact ⟨by omega, by rw [if_pos hrw]⟩
      rw [hset, Finset.card_range, List.getD_cons_zero]
    | succ j =>
      have hset : (Finset.range (w :: ws).sum).filter (fun r => choiceIndex (w :: ws) r = j + 1)
          = ((Finset.range ws.sum).filter (fun r => choiceIndex ws r = j)).image
              (fun r => r + w) := by
        ext r
        simp only [Finset.mem_filter, Finset.mem_range, Finset.mem_image, List.sum_cons,
          choiceIndex]
        constructor
        · rintro ⟨hr, hc⟩
          by_cases hrw : r < w
          · rw [if_pos hrw] at hc
            omega
          · rw [if_neg hrw] at hc
            exact ⟨r - w, ⟨by omega, by omega⟩, by omega⟩
        · rintro ⟨a, ⟨ha, hca⟩, rfl⟩
          refine ⟨by omega, ?_⟩
          rw [if_neg (by omega)]
          have hdrop : a + w - w = a := by omega
          rw [hdrop, hca]
      rw [hset, Finset.card_image_of_injective _ (add_left_injective w), ih,
        List.getD_cons_succ]

/-- C6 counterexample: on a candidate list whose only move has zero total
game count, `pick_random` does not return a candidate: `random.choices`
raises `ValueError` when the total of the weights is zero, so the call
fails instead of choosing uniformly. -/
theorem pick_random_all_zero_fails :
    pick_random [⟨"e2e4", 0, 0, 0⟩] 0 = none := by
  rfl

/-- C6 (amended): when every candidate in the list has total weight zero
(white wins + black wins + draws all zero), `pick_random` fails for every
random draw — `random.choices` raises `ValueError` on a zero total weight
— rather than returning a candidate. -/
theorem pick_random_all_zero_none (l : List CandidateMove) (r : ℕ)
    (h : ∀ m ∈ l, moveCount m = 0) :
    pick_random l r = none := by
  have hsum : (l.map moveCount).sum = 0 := by
    apply List.sum_eq_zero
    intro x hx
    obtain ⟨m, hm, rfl⟩ := List.mem_map.mp hx
    exact h m hm
  simp [pick_random, randomChoices1, hsum]

theorem pick_random_all_zero_none_witness :
    pick_random [⟨"e2e4", 0, 0, 0⟩, ⟨"d2d4", 0, 0, 0⟩] 7 = none :=
  pick_random_all_zero_none [⟨"e2e4", 0, 0, 0⟩, ⟨"d2d4", 0, 0, 0⟩] 7 (by decide)

/-- C7: when at least one candidate has a positive total game count,
`pick_random` always returns some candidate from the list whose total game
count is positive (never a zero-weight candidate), and each index is
selected for exactly as many draws as its weight out of the total — i.e.
with probability proportional to its total game count. -/
theorem pick_random_weighted_spec (l : List CandidateMove)
    (hpos : 0 < (l.map moveCount).sum) :
    (∀ r : ℕ, ∃ c, pick_random l r = some c ∧ c ∈ l ∧ 0 < moveCount c)
    ∧ ∀ i (hi : i < l.length),
        ((Finset.range ((l.map moveCount).sum)).filter
            (fun r => choiceIndex (l.map moveCount) r = i)).card
          = moveCount (l.get ⟨i, hi⟩) := by
  constructor
  · intro r
    have htot : (l.map moveCount).sum ≠ 0 := by omega
    have hrm : r % (l.map moveCount).sum < (l.map moveCount).sum := Nat.mod_lt _ hpos
    have hidx : choiceIndex (l.map moveCount) (r % (l.map moveCount).sum) < l.length := by
      have hlt := choiceIndex_lt_length (l.map moveCount) _ hrm
      simpa using hlt
    obtain ⟨c, hc⟩ : ∃ c,
        l.get? (choiceIndex (l.map moveCount) (r % (l.map moveCount).sum)) = some c := by
      rw [List.get?_eq_get hidx]
      exact ⟨_, rfl⟩
    refine ⟨c, ?_, List.get?_mem hc, ?_⟩
    · simp only [pick_random, randomChoices1]
      rw [if_neg htot]
      exact hc
    · apply choiceIndex_get_pos (l.map moveCount) _ (moveCount c) hrm
      rw [List.get?_map, hc]
      rfl
  · intro i hi
    rw [card_choiceIndex]
    have hmap : (l.map moveCount).get? i = some (moveCount (l.get ⟨i, hi⟩)) := by
      rw [List.get?_map, List.get?_eq_get hi]
      rfl
    rw [List.getD_eq_get?, hmap]
    rfl

theorem pick_random_weighted_spec_witness :
    ∃ c, pick_random [⟨"e2e4", 1, 0, 0⟩, ⟨"d2d4", 0, 0, 0⟩] 0 = some c
      ∧ c ∈ [⟨"e2e4", 1, 0, 0⟩, ⟨"d2d4", 0, 0, 0⟩] ∧ 0 < moveCount c :=
  (pick_random_weighted_spec [⟨"e2e4", 1, 0, 0⟩, ⟨"d2d4", 0, 0, 0⟩] (by decide)).1 0

/-- Which opening-explorer database a request generator targets:
`masters` for `master_db_request`, `lichess speed rating` for
`LichessDbRequest(speed, rating)`. -/
inductive DbSource where
  | masters : DbSource
  | lichess (speed : String) (rating : String) : DbSource
deriving DecidableEq

/-- The two selection strategies present in the script. -/
inductive Strategy where
  | top : Strategy
  | random : Strategy
deriving DecidableEq

/-- `selection_strategy(explorer_moves)` for one random draw `r` (unused by
`pick_top`); `none` models the strategy raising instead of choosing. -/
def applyStrategy : Strategy → List CandidateMove → ℕ → Option CandidateMove
  | Strategy.top, l, _ => pick_top l
  | Strategy.random, l, r => pick_random l r

/-- A `MoveGenerator` binds a database request generator and a selection
strategy; `min_book_moves` is set to 5 by the constructor (and, as in the
script, never read again — the exhaustion guard uses its own default). -/
structure MoveGenerator where
  db_request_generator : DbSource
  selection_strategy : Strategy
  min_book_moves : ℕ
deriving DecidableEq

/-- The board state, as far as the script observes it through the external
rules engine: the FEN serialization, the side to move (`true` = White, as
`chess.WHITE` is truthy) and the full-move number. -/
structure Board where
  fen : String
  turn : Bool
  fullmove_number : ℤ
deriving DecidableEq

/-- Outcome of `get_db_moves` for one profile and position: the parsed
`moves` list, or `Except.error ()` for the `JSONDecodeError` escalated
after the retry loop gives up. -/
def DbOracle : Type :=
  DbSource → String → Except Unit (List CandidateMove)

/-- Aggregate game count over a moves list, as accumulated by the loop in
`out_of_master_book`. -/
def totalGames (explorer_moves : List CandidateMove) : ℕ :=
  explorer_moves.foldl (fun count exp_move => count + moveCount exp_move) 0

/-- `out_of_master_book(board, min_count)`: query the master database for
the position and report whether the aggregate game count is below
`min_count` (the script always calls it with the default `min_count = 5`).
A terminal query failure propagates. -/
def out_of_master_book (db : DbOracle) (fen : String) (min_count : ℕ) :
    Except Unit Bool :=
  match db DbSource.masters fen with
  | Except.error e => Except.error e
  | Except.ok explorer_moves => Except.ok (decide (totalGames explorer_moves < min_count))

/-- The ways `get_move` can fail: `outOfBook` for the `OutOfBook` signal,
`queryFailure` for an escalated `JSONDecodeError` from `get_db_moves`,
`valueError` for a selection strategy that raises. -/
inductive GetMoveError where
  | outOfBook : GetMoveError
  | queryFailure : GetMoveError
  | valueError : GetMoveError
deriving DecidableEq

/-- `MoveGenerator.get_move(board)` with the random draw made explicit.
Besides the result (the UCI string of the chosen move, or an error) it
returns the trace of database lookups performed, in order, so that the
query pattern — master-book guard first, profile lookup only if the guard
passes — is part of the model. -/
def get_move (db : DbOracle) (gen : MoveGenerator) (board : Board) (r : ℕ) :
    Except GetMoveError String × List DbSource :=
  match out_of_master_book db board.fen 5 with
  | Except.error _ => (Except.error GetMoveError.queryFailure, [DbSource.masters])
  | Except.ok true => (Except.error GetMoveError.outOfBook, [DbSource.masters])
  | Except.ok false =>
    match db gen.db_request_generator board.fen with
    | Except.error _ =>
        (Except.error GetMoveError.queryFailure, [DbSource.masters, gen.db_request_generator])
    | Except.ok explorer_moves =>
      if explorer_moves.length = 0 then
        (Except.error GetMoveError.outOfBook, [DbSource.masters, gen.db_request_generator])
      else
        match applyStrategy gen.selection_strategy explorer_moves r with
        | none =>
            (Except.error GetMoveError.valueError, [DbSource.masters, gen.db_request_generator])
        | some explorer_move =>
            (Except.ok explorer_move.uci, [DbSource.masters, gen.db_request_generator])

lemma applyStrategy_mem (st : Strategy) (l : List CandidateMove) (r : ℕ)
    (c : CandidateMove) (h : applyStrategy st l r = some c) : c ∈ l := by
  cases st with
  | top =>
    simp only [applyStrategy, pick_top] at h
    exact List.mem_of_mem_head? h
  | random =>
    simp only [applyStrategy, pick_random, randomChoices1] at h
    split at h
    · exact absurd h (by simp)
    · exact List.get?_mem h

/-- C1: provided both database lookups parse, `get_move` fails with
`OutOfBook` iff the master database reports fewer than 5 aggregate games
for the position or the generator's own profile lookup returns an empty
candidate list; the master guard is always queried first regardless of the
bound profile, the profile lookup is skipped when the guard fires, and
otherwise `get_move` returns the move of the candidate chosen by its
selection strategy, which belongs to the candidate list. -/
theorem get_move_spec (db : DbOracle) (gen : MoveGenerator) (board : Board) (r : ℕ)
    (mm pm : List CandidateMove)
    (hm : db DbSource.masters board.fen = Except.ok mm)
    (hp : db gen.db_request_generator board.fen = Except.ok pm) :
    ((get_move db gen board r).1 = Except.error GetMoveError.outOfBook
        ↔ totalGames mm < 5 ∨ pm = [])
    ∧ (totalGames mm < 5 → (get_move db gen board r).2 = [DbSource.masters])
    ∧ (¬ totalGames mm < 5 →
        (get_move db gen board r).2 = [DbSource.masters, gen.db_request_generator])
    ∧ ∀ c, ¬ totalGames mm < 5 → applyStrategy gen.selection_strategy pm r = some c →
        (get_move db gen board r).1 = Except.ok c.uci ∧ c ∈ pm := by
  by_cases h5 : totalGames mm < 5
  · have hg : get_move db gen board r
        = (Except.error GetMoveError.outOfBook, [DbSource.masters]) := by
      simp [get_move, out_of_master_book, hm, h5]
    rw [hg]
    exact ⟨by simp [h5], fun _ => rfl, fun hc => absurd h5 hc, fun c hc => absurd h5 hc⟩
  · by_cases hemp : pm.length = 0
    · have hpm : pm = [] := List.length_eq_zero.mp hemp
      have hg : get_move db gen board r
          = (Except.error GetMoveError.outOfBook,
              [DbSource.masters, gen.db_request_generator]) := by
        simp [get_move, out_of_master_book, hm, hp, h5, hemp]
      rw [hg]
      refine ⟨by simp [hpm], fun h => absurd h h5, fun _ => rfl, ?_⟩
      intro c _ hst
      have hmem := applyStrategy_mem _ _ _ _ hst
      rw [hpm] at hmem
      simp at hmem
    · cases hst : applyStrategy gen.selection_strategy pm r with
      | none =>
        have hg : get_move db gen board r
            = (Except.error GetMoveError.valueError,
                [DbSource.masters, gen.db_request_generator]) := by
          simp [get_move, out_of_master_book, hm, hp, h5, hemp, hst]
        rw [hg]
        refine ⟨?_, fun h => absurd h h5, fun _ => rfl, ?_⟩
        · constructor
          · intro h
            simp at h
          · rintro (h | h)
            · exact absurd h h5
            · exact absurd (List.length_eq_zero.mpr h) hemp
        · intro c _ hst2
          cases hst2
      | some c0 =>
        have hg : get_move db gen board r
            = (Except.ok c0.uci, [DbSource.masters, gen.db_request_generator]) := by
          simp [get_move, out_of_master_book, hm, hp, h5, hemp, hst]
        rw [hg]
        refine ⟨?_, fun h => absurd h h5, fun _ => rfl, ?_⟩
        · simp [h5]
          exact fun h => absurd (List.length_eq_zero.mpr h) hemp
        · intro c _ hst2
          cases hst2
          exact ⟨rfl, applyStrategy_mem _ _ _ _ hst⟩

/-- A database oracle used to exercise `get_move_spec` on concrete input:
the master book holds one well-attested move, the rated-player book one
candidate with a single game. -/
def wdbC1 : DbOracle := fun src _ =>
  match src with
  | DbSource.masters => Except.ok [⟨"e2e4", 3, 2, 1⟩]
  | DbSource.lichess _ _ => Except.ok [⟨"e7e5", 1, 0, 0⟩]

def wgenC1 : MoveGenerator :=
  ⟨DbSource.lichess "rapid" "2000", Strategy.random, 5⟩

def wboardC1 : Board :=
  ⟨"rnbqkbnr/pppppppp/8/8/8/8/PPPPPPPP/RNBQKBNR w KQkq - 0 1", true, 1⟩

theorem get_move_spec_witness :
    ((get_move wdbC1 wgenC1 wboardC1 0).1 = Except.error GetMoveError.outOfBook
        ↔ totalGames [⟨"e2e4", 3, 2, 1⟩] < 5
          ∨ ([⟨"e7e5", 1, 0, 0⟩] : List CandidateMove) = [])
    ∧ ((get_move wdbC1 wgenC1 wboardC1 0).1
          = Except.ok (CandidateMove.uci ⟨"e7e5", 1, 0, 0⟩)
        ∧ (⟨"e7e5", 1, 0, 0⟩ : CandidateMove) ∈ [(⟨"e7e5", 1, 0, 0⟩ : CandidateMove)]) :=
  ⟨(get_move_spec wdbC1 wgenC1 wboardC1 0 [⟨"e2e4", 3, 2, 1⟩] [⟨"e7e5", 1, 0, 0⟩]
      rfl rfl).1,
   (get_move_spec wdbC1 wgenC1 wboardC1 0 [⟨"e2e4", 3, 2, 1⟩] [⟨"e7e5", 1, 0, 0⟩]
      rfl rfl).2.2.2 ⟨"e7e5", 1, 0, 0⟩ (by decide) (by decide)⟩

/-- One iteration state of the retry loop in `get_db_moves`, modelled over
a stream of responses: `responses n` is the parse result of the `n`-th
HTTP attempt (`none` = `JSONDecodeError`, i.e. a throttling signal).
Returns the final outcome together with the list of sleep durations
performed and the list of requests issued, in order.  The request is
rebuilt from the board by `request_generator` on every attempt. -/
def get_db_moves_loop {α : Type} (request_generator : Board → α) (board : Board)
    (responses : ℕ → Option (List CandidateMove)) (attempt retries : ℕ) :
    Except Unit (List CandidateMove) × List ℕ × List α :=
  let request := request_generator board
  match responses attempt with
  | some moves => (Except.ok moves, [], [request])
  | none =>
    if h : retries < 10 then
      let rest := get_db_moves_loop request_generator board responses (attempt + 1) (retries + 1)
      (rest.1, 120 :: rest.2.1, request :: rest.2.2)
    else
      (Except.error (), [], [request])
termination_by 10 - retries
decreasing_by
  simp_wf
  omega

/-- `get_db_moves(board, request_generator)` over a response stream: the
retry counter starts at 0 and the first attempt is response index 0. -/
def get_db_moves {α : Type} (request_generator : Board → α) (board : Board)
    (responses : ℕ → Option (List CandidateMove)) :
    Except Unit (List CandidateMove) × List ℕ × List α :=
  get_db_moves_loop request_generator board responses 0 0

lemma get_db_moves_loop_all_fail {α : Type} (request_generator : Board → α) (board : Board)
    (responses : ℕ → Option (List CandidateMove)) :
    ∀ d retries attempt, 10 - retries = d → retries ≤ 10 →
      (∀ n, attempt ≤ n → n ≤ attempt + (10 - retries) → responses n = none) →
      get_db_moves_loop request_generator board responses attempt retries
        = (Except.error (), List.replicate (10 - retries) 120,
            List.replicate (11 - retries) (request_generator board)) := by
  intro d
  induction d with
  | zero =>
    intro retries attempt hd hr h
    have h10 : retries = 10 := by omega
    subst h10
    rw [get_db_moves_loop, h attempt (le_refl _) (by omega)]
    simp
  | succ d ih =>
    intro retries attempt hd hr h
    rw [get_db_moves_loop, h attempt (le_refl _) (by omega)]
    simp only
    rw [dif_pos (by omega : retries < 10)]
    rw [ih (retries + 1) (attempt + 1) (by omega) (by omega)
      (by intro n h1 h2; exact h n (by omega) (by omega))]
    have h2 : 10 - (retries + 1) = d := by omega
    have h3 : 10 - retries = d + 1 := hd
    have h4 : 11 - (retries + 1) = d + 1 := by omega
    have h5 : 11 - retries = d + 2 := by omega
    rw [h2, h3, h4, h5]
    simp [List.replicate_succ]

/-- C4: when the response fails to parse on every attempt, the retry loop
issues the identical query 11 times (the initial attempt plus 10 retries),
sleeps the fixed 120-unit backoff exactly 10 times, and raises the
terminal failure on the 11th attempt. -/
theorem get_db_moves_retry_spec {α : Type} (request_generator : Board → α) (board : Board)
    (responses : ℕ → Option (List CandidateMove))
    (h : ∀ n, n ≤ 10 → responses n = none) :
    get_db_moves request_generator board responses
      = (Except.error (), List.replicate 10 120,
          List.replicate 11 (request_generator board)) := by
  rw [get_db_moves, get_db_moves_loop_all_fail request_generator board responses 10 0 0
    (by omega) (by omega) (by intro n h1 h2; exact h n (by omega))]

theorem get_db_moves_retry_spec_witness :
    get_db_moves (fun b => b.fen) wboardC1 (fun _ => none)
      = (Except.error (), List.replicate 10 120,
          List.replicate 11 wboardC1.fen) :=
  get_db_moves_retry_spec (fun b => b.fen) wboardC1 (fun _ => none)
    (fun n _ => rfl)

/-- The external chess rules engine (python-chess), as observed by the
script: FEN parsing, the effect of `board.push(move)` on the FEN
serialization, and SAN rendering of a move in a position.  The documented
effect of `push` on the side to move (flips) and on the full-move number
(increments after Black's move) is fixed in `board_push` below. -/
structure RulesEngine where
  parse_fen : String → Board
  push_fen : String → String → String
  san : String → String → String

/-- `board.push(move)`: the serialization is updated by the engine, the
side to move flips, and the full-move number increments when Black was the
side to move. -/
def board_push (engine : RulesEngine) (board : Board) (move : String) : Board :=
  { fen := engine.push_fen board.fen move
    turn := !board.turn
    fullmove_number :=
      if board.turn then board.fullmove_number else board.fullmove_number + 1 }

/-- The loop state of `run_game`: the board, the index of the player to
move (0 or 1 into the generator list), the remembered SAN of White's last
move, and the accumulated `game_score` lines. -/
structure GameState where
  board : Board
  player_to_move : ℕ
  white_move : String
  game_score : List String

/-- One successful iteration of the `run_game` loop body around
`board.push(move)`: when player 1 just produced a move, a score line
`f"{fullmove_number} {white_move} {san}"` is appended; when player 0 did,
its SAN is remembered as `white_move`; then the move is pushed and the
player index flips via `1 - player_to_move`. -/
def apply_move (engine : RulesEngine) (s : GameState) (move : String) : GameState :=
  let san_str := engine.san s.board.fen move
  { board := board_push engine s.board move
    player_to_move := 1 - s.player_to_move
    white_move := if s.player_to_move = 1 then s.white_move else san_str
    game_score :=
      if s.player_to_move = 1 then
        s.game_score ++ [toString s.board.fullmove_number ++ " " ++ s.white_move ++ " " ++ san_str]
      else s.game_score }

/-- The `while True` loop of `run_game`, with an explicit fuel bound (the
Python loop is unbounded; `none` in the first component means the fuel ran
out, which has no counterpart in the script).  `rands` is the stream of
random draws consumed by `pick_random`, shifted by one on each iteration.
The result carries, besides the loop outcome — `Except.ok (board,
game_score)` for the `return` in the `except OutOfBook` handler,
`Except.error e` for any other exception propagating out of the loop — the
ghost trace of player indices invoked and of the moves successfully
returned. -/
def run_game_loop (db : DbOracle) (engine : RulesEngine) (gens : ℕ → MoveGenerator)
    (rands : ℕ → ℕ) :
    ℕ → GameState →
      Option (Except GetMoveError (Board × List String)) × List ℕ × List String
  | 0, _ => (none, [], [])
  | fuel + 1, s =>
    match (get_move db (gens s.player_to_move) s.board (rands 0)).1 with
    | Except.ok move =>
      let rest := run_game_loop db engine gens (fun k => rands (k + 1)) fuel
        (apply_move engine s move)
      (rest.1, s.player_to_move :: rest.2.1, move :: rest.2.2)
    | Except.error GetMoveError.outOfBook =>
      (some (Except.ok (s.board, s.game_score)), [s.player_to_move], [])
    | Except.error e =>
      (some (Except.error e), [s.player_to_move], [])

/-- `MoveGenerator(master_db_request, pick_top)` from `run_game`. -/
def book_move_generator : MoveGenerator :=
  ⟨DbSource.masters, Strategy.top, 5⟩

/-- `MoveGenerator(LichessDbRequest(db_speed, db_rating), pick_random)`
from `run_game`. -/
def lichess_move_generator (db_speed db_rating : String) : MoveGenerator :=
  ⟨DbSource.lichess db_speed db_rating, Strategy.random, 5⟩

/-- The initial generator binding of `run_game`: if White is to move the
generator list is `[lichess, book]` with player 0 to move, otherwise
`[book, lichess]` with player 1 to move. -/
def run_game_setup (board : Board) (db_speed db_rating : String) :
    (ℕ → MoveGenerator) × ℕ :=
  if board.turn then
    ((fun p => if p = 0 then lichess_move_generator db_speed db_rating
               else book_move_generator), 0)
  else
    ((fun p => if p = 0 then book_move_generator
               else lichess_move_generator db_speed db_rating), 1)

/-- `run_game(FEN, db_speed, db_rating)` over the oracles, with explicit
fuel and random stream: parse the FEN, bind the generators per side, and
iterate with `white_move` initialized to two spaces and an empty score. -/
def run_game (db : DbOracle) (engine : RulesEngine)
    (FEN db_speed db_rating : String) (rands : ℕ → ℕ) (fuel : ℕ) :
    Option (Except GetMoveError (Board × List String)) × List ℕ × List String :=
  let board := engine.parse_fen FEN
  let setup := run_game_setup board db_speed db_rating
  run_game_loop db engine setup.1 rands fuel
    { board := board, player_to_move := setup.2, white_move := "  ", game_score := [] }

lemma run_game_loop_succ_ok {db : DbOracle} {engine : RulesEngine}
    {gens : ℕ → MoveGenerator} {rands : ℕ → ℕ} {fuel : ℕ} {s : GameState} {move : String}
    (h : (get_move db (gens s.player_to_move) s.board (rands 0)).1 = Except.ok move) :
    run_game_loop db engine gens rands (fuel + 1) s
      = ((run_game_loop db engine gens (fun k => rands (k + 1)) fuel
            (apply_move engine s move)).1,
         s.player_to_move :: (run_game_loop db engine gens (fun k => rands (k + 1)) fuel
            (apply_move engine s move)).2.1,
         move :: (run_game_loop db engine gens (fun k => rands (k + 1)) fuel
            (apply_move engine s move)).2.2) := by
  simp only [run_game_loop, h]

lemma run_game_loop_succ_oob {db : DbOracle} {engine : RulesEngine}
    {gens : ℕ → MoveGenerator} {rands : ℕ → ℕ} {fuel : ℕ} {s : GameState}
    (h : (get_move db (gens s.player_to_move) s.board (rands 0)).1
        = Except.error GetMoveError.outOfBook) :
    run_game_loop db engine gens rands (fuel + 1) s
      = (some (Except.ok (s.board, s.game_score)), [s.player_to_move], []) := by
  simp only [run_game_loop, h]

lemma run_game_loop_succ_err {db : DbOracle} {engine : RulesEngine}
    {gens : ℕ → MoveGenerator} {rands : ℕ → ℕ} {fuel : ℕ} {s : GameState}
    {e : GetMoveError} (hne : e ≠ GetMoveError.outOfBook)
    (h : (get_move db (gens s.player_to_move) s.board (rands 0)).1 = Except.error e) :
    run_game_loop db engine gens rands (fuel + 1) s
      = (some (Except.error e), [s.player_to_move], []) := by
  cases e with
  | outOfBook => exact absurd rfl hne
  | queryFailure => simp only [run_game_loop, h]
  | valueError => simp only [run_game_loop, h]

lemma run_game_loop_no_oob_escape (db : DbOracle) (engine : RulesEngine)
    (gens : ℕ → MoveGenerator) :
    ∀ fuel (rands : ℕ → ℕ) (s : GameState),
      (run_game_loop db engine gens rands fuel s).1
        ≠ some (Except.error GetMoveError.outOfBook) := by
  intro fuel
  induction fuel with
  | zero => intro rands s; simp [run_game_loop]
  | succ fuel ih =>
    intro rands s
    cases hget : (get_move db (gens s.player_to_move) s.board (rands 0)).1 with
    | ok move =>
      rw [run_game_loop_succ_ok hget]
      exact ih (fun k => rands (k + 1)) (apply_move engine s move)
    | error e =>
      cases e with
      | outOfBook => rw [run_game_loop_succ_oob hget]; simp
      | queryFailure => rw [run_game_loop_succ_err (by simp) hget]; simp
      | valueError => rw [run_game_loop_succ_err (by simp) hget]; simp

lemma run_game_loop_exit_only_oob (db : DbOracle) (engine : RulesEngine)
    (gens : ℕ → MoveGenerator) :
    ∀ fuel (rands : ℕ → ℕ) (s : GameState) (b : Board) (sc : List String),
      (run_game_loop db engine gens rands fuel s).1 = some (Except.ok (b, sc)) →
      ∃ (s' : GameState) (r' : ℕ),
        (get_move db (gens s'.player_to_move) s'.board r').1
          = Except.error GetMoveError.outOfBook ∧ b = s'.board ∧ sc = s'.game_score := by
  intro fuel
  induction fuel with
  | zero =>
    intro rands s b sc h
    simp [run_game_loop] at h
  | succ fuel ih =>
    intro rands s b sc h
    cases hget : (get_move db (gens s.player_to_move) s.board (rands 0)).1 with
    | ok move =>
      rw [run_game_loop_succ_ok hget] at h
      exact ih (fun k => rands (k + 1)) (apply_move engine s move) b sc h
    | error e =>
      cases e with
      | outOfBook =>
        rw [run_game_loop_succ_oob hget] at h
        simp at h
        exact ⟨s, rands 0, hget, h.1.symm, h.2.symm⟩
      | queryFailure =>
        rw [run_game_loop_succ_err (by simp) hget] at h
        simp at h
      | valueError =>
        rw [run_game_loop_succ_err (by simp) hget] at h
        simp at h

/-- C2: each loop step invokes the current side's generator; on success it
applies the returned move to the position and flips which generator acts
next; the only normal exit is a generator signalling `OutOfBook`, at which
point the loop returns the final position (the `OutOfBook` exception never
escapes the simulator); and there is no other exit condition — no move
limit or checkmate/draw detection (the fuel argument of the embedding is
an artifact; the branch equations hold for every fuel). -/
theorem run_game_loop_spec (db : DbOracle) (engine : RulesEngine)
    (gens : ℕ → MoveGenerator) (rands : ℕ → ℕ) (fuel : ℕ) (s : GameState) :
    (∀ move, (get_move db (gens s.player_to_move) s.board (rands 0)).1 = Except.ok move →
      run_game_loop db engine gens rands (fuel + 1) s
        = ((run_game_loop db engine gens (fun k => rands (k + 1)) fuel
              (apply_move engine s move)).1,
           s.player_to_move :: (run_game_loop db engine gens (fun k => rands (k + 1)) fuel
              (apply_move engine s move)).2.1,
           move :: (run_game_loop db engine gens (fun k => rands (k + 1)) fuel
              (apply_move engine s move)).2.2))
    ∧ ((get_move db (gens s.player_to_move) s.board (rands 0)).1
          = Except.error GetMoveError.outOfBook →
      run_game_loop db engine gens rands (fuel + 1) s
        = (some (Except.ok (s.board, s.game_score)), [s.player_to_move], []))
    ∧ ((run_game_loop db engine gens rands fuel s).1
          ≠ some (Except.error GetMoveError.outOfBook))
    ∧ (∀ b sc, (run_game_loop db engine gens rands fuel s).1
          = some (Except.ok (b, sc)) →
        ∃ (s' : GameState) (r' : ℕ),
          (get_move db (gens s'.player_to_move) s'.board r').1
              = Except.error GetMoveError.outOfBook
            ∧ b = s'.board ∧ sc = s'.game_score) :=
  ⟨fun _ h => run_game_loop_succ_ok h,
   fun h => run_game_loop_succ_oob h,
   run_game_loop_no_oob_escape db engine gens fuel rands s,
   fun b sc h => run_game_loop_exit_only_oob db engine gens fuel rands s b sc h⟩

/-- A database oracle on which every position is out of the master book:
both endpoints return an empty moves list. -/
def wdbEmpty : DbOracle := fun _ _ => Except.ok []

/-- A trivial concrete rules engine used to exercise the loop theorems. -/
def wengine : RulesEngine :=
  ⟨fun f => ⟨f, true, 1⟩, fun f _ => f, fun _ _ => "x"⟩

def wgens : ℕ → MoveGenerator := fun _ => book_move_generator

def wstate : GameState :=
  ⟨⟨"rnbqkbnr/pppppppp/8/8/8/8/PPPPPPPP/RNBQKBNR w KQkq - 0 1", true, 1⟩, 0, "  ", []⟩

theorem run_game_loop_spec_witness :
    run_game_loop wdbEmpty wengine wgens (fun _ => 0) 1 wstate
      = (some (Except.ok (wstate.board, wstate.game_score)),
          [wstate.player_to_move], []) :=
  (run_game_loop_spec wdbEmpty wengine wgens (fun _ => 0) 0 wstate).2.1 rfl

/-- C10: `get_move` reads the board but never alters it (in the embedding
it returns only a move, and the loop state changes exclusively through
`board_push` on success); consequently, when the loop returns after an
`OutOfBook`, the final position is exactly the initial position with only
the successfully returned moves applied, in order. -/
theorem run_game_board_fold (db : DbOracle) (engine : RulesEngine)
    (gens : ℕ → MoveGenerator) :
    ∀ fuel (rands : ℕ → ℕ) (s : GameState) (b : Board) (sc : List String)
      (inv : List ℕ) (mvs : List String),
      run_game_loop db engine gens rands fuel s
        = (some (Except.ok (b, sc)), inv, mvs) →
      b = mvs.foldl (board_push engine) s.board := by
  intro fuel
  induction fuel with
  | zero =>
    intro rands s b sc inv mvs h
    simp [run_game_loop] at h
  | succ fuel ih =>
    intro rands s b sc inv mvs h
    cases hget : (get_move db (gens s.player_to_move) s.board (rands 0)).1 with
    | ok move =>
      rw [run_game_loop_succ_ok hget] at h
      have h1 : (run_game_loop db engine gens (fun k => rands (k + 1)) fuel
          (apply_move engine s move)).1 = some (Except.ok (b, sc)) := congrArg Prod.fst h
      have h3 : mvs = move :: (run_game_loop db engine gens (fun k => rands (k + 1)) fuel
          (apply_move engine s move)).2.2 := (congrArg (fun p => p.2.2) h).symm
      have htuple : run_game_loop db engine gens (fun k => rands (k + 1)) fuel
            (apply_move engine s move)
          = (some (Except.ok (b, sc)),
             (run_game_loop db engine gens (fun k => rands (k + 1)) fuel
                (apply_move engine s move)).2.1,
             (run_game_loop db engine gens (fun k => rands (k + 1)) fuel
                (apply_move engine s move)).2.2) := by
        rw [← h1]
      have hb := ih (fun k => rands (k + 1)) (apply_move engine s move) b sc _ _ htuple
      rw [h3, List.foldl_cons]
      exact hb
    | error e =>
      cases e with
      | outOfBook =>
        rw [run_game_loop_succ_oob hget] at h
        simp only [Prod.mk.injEq, Option.some.injEq, Except.ok.injEq] at h
        obtain ⟨⟨hb, -⟩, -, hmvs⟩ := h
        rw [← hmvs]
        simp [hb]
      | queryFailure =>
        rw [run_game_loop_succ_err (by simp) hget] at h
        simp at h
      | valueError =>
        rw [run_game_loop_succ_err (by simp) hget] at h
        simp at h

theorem run_game_board_fold_witness :
    wstate.board = List.foldl (board_push wengine) wstate.board [] :=
  run_game_board_fold wdbEmpty wengine wgens 1 (fun _ => 0) wstate wstate.board
    wstate.game_score [wstate.player_to_move] [] rfl

lemma run_game_loop_invoked (db : DbOracle) (engine : RulesEngine)
    (gens : ℕ → MoveGenerator) :
    ∀ fuel (rands : ℕ → ℕ) (s : GameState), s.player_to_move ≤ 1 →
      ∀ i p, (run_game_loop db engine gens rands fuel s).2.1.get? i = some p →
        p = if i % 2 = 0 then s.player_to_move else 1 - s.player_to_move := by
  intro fuel
  induction fuel with
  | zero =>
    intro rands s hp i p h
    simp [run_game_loop] at h
  | succ fuel ih =>
    intro rands s hp i p h
    cases hget : (get_move db (gens s.player_to_move) s.board (rands 0)).1 with
    | ok move =>
      rw [run_game_loop_succ_ok hget] at h
      cases i with
      | zero =>
        have h0 : s.player_to_move = p := by simpa using h
        simpa using h0.symm
      | succ j =>
        have hj : (run_game_loop db engine gens (fun k => rands (k + 1)) fuel
            (apply_move engine s move)).2.1.get? j = some p := by simpa using h
        have hp' : (apply_move engine s move).player_to_move ≤ 1 := by
          simp only [apply_move]
          omega
        have hrec := ih (fun k => rands (k + 1)) (apply_move engine s move) hp' j p hj
        simp only [apply_move] at hrec
        rw [hrec]
        by_cases hj2 : j % 2 = 0
        · have hs : (j + 1) % 2 = 1 := by omega
          simp [hj2, hs]
        · have h1 : (j + 1) % 2 = 0 := by omega
          simp [hj2, h1]
          omega
    | error e =>
      have hsingle : (run_game_loop db engine gens rands (fuel + 1) s).2.1
          = [s.player_to_move] := by
        cases e with
        | outOfBook => rw [run_game_loop_succ_oob hget]
        | queryFailure => rw [run_game_loop_succ_err (by simp) hget]
        | valueError => rw [run_game_loop_succ_err (by simp) hget]
      rw [hsingle] at h
      cases i with
      | zero =>
        have h0 : s.player_to_move = p := by simpa using h
        simpa using h0.symm
      | succ j => simp at h

/-- C9: whichever colour is to move in the starting position, `run_game`
binds the rated-player generator (`pick_random` over the Lichess database)
to the side to move and the master-book generator (`pick_top`) to the side
that has just moved; hence the first invocation of every simulated game is
the rated-player random generator and the two generators strictly
alternate along the invocation trace. -/
theorem run_game_first_mover_spec (db : DbOracle) (engine : RulesEngine)
    (FEN db_speed db_rating : String) (rands : ℕ → ℕ) (fuel : ℕ) :
    ((run_game_setup (engine.parse_fen FEN) db_speed db_rating).1
        (run_game_setup (engine.parse_fen FEN) db_speed db_rating).2
      = lichess_move_generator db_speed db_rating)
    ∧ ((run_game_setup (engine.parse_fen FEN) db_speed db_rating).1
        (1 - (run_game_setup (engine.parse_fen FEN) db_speed db_rating).2)
      = book_move_generator)
    ∧ ∀ i p,
        (run_game db engine FEN db_speed db_rating rands fuel).2.1.get? i = some p →
        (run_game_setup (engine.parse_fen FEN) db_speed db_rating).1 p
          = if i % 2 = 0 then lichess_move_generator db_speed db_rating
            else book_move_generator := by
  by_cases ht : (engine.parse_fen FEN).turn
  · have hsetup : run_game_setup (engine.parse_fen FEN) db_speed db_rating
        = ((fun p => if p = 0 then lichess_move_generator db_speed db_rating
            else book_move_generator), 0) := by
      simp [run_game_setup, ht]
    refine ⟨by rw [hsetup]; rfl, by rw [hsetup]; rfl, ?_⟩
    intro i p hp
    simp only [run_game] at hp
    rw [hsetup] at hp
    have hinv := run_game_loop_invoked db engine _ fuel rands _ (by simp) i p hp
    simp only at hinv
    rw [hsetup]
    by_cases hi : i % 2 = 0
    · simp [hi] at hinv
      simp [hi, hinv]
    · simp [hi] at hinv
      simp [hi, hinv]
  · have hsetup : run_game_setup (engine.parse_fen FEN) db_speed db_rating
        = ((fun p => if p = 0 then book_move_generator
            else lichess_move_generator db_speed db_rating), 1) := by
      simp [run_game_setup, ht]
    refine ⟨by rw [hsetup]; rfl, by rw [hsetup]; rfl, ?_⟩
    intro i p hp
    simp only [run_game] at hp
    rw [hsetup] at hp
    have hinv := run_game_loop_invoked db engine _ fuel rands _ (by simp) i p hp
    simp only at hinv
    rw [hsetup]
    by_cases hi : i % 2 = 0
    · simp [hi] at hinv
      simp [hi, hinv]
    · simp [hi] at hinv
      simp [hi, hinv]

theorem run_game_first_mover_spec_witness :
    (run_game_setup (wengine.parse_fen "f") "rapid" "2000").1 0
      = if 0 % 2 = 0 then lichess_move_generator "rapid" "2000"
        else book_move_generator :=
  (run_game_first_mover_spec wdbEmpty wengine "f" "rapid" "2000" (fun _ => 0) 1).2.2
    0 0 rfl

lemma get_move_master_exhausted {db : DbOracle} {gen : MoveGenerator} {board : Board}
    {r : ℕ} {mm : List CandidateMove}
    (hm : db DbSource.masters board.fen = Except.ok mm) (h5 : totalGames mm < 5) :
    (get_move db gen board r).1 = Except.error GetMoveError.outOfBook := by
  simp [get_move, out_of_master_book, hm, h5]

lemma run_game_loop_total (db : DbOracle) (engine : RulesEngine)
    (gens : ℕ → MoveGenerator) (N : ℤ)
    (hdb : ∀ b : Board, N ≤ b.fullmove_number →
      ∃ mm, db DbSource.masters b.fen = Except.ok mm ∧ totalGames mm < 5) :
    ∀ fuel (rands : ℕ → ℕ) (s : GameState),
      2 * (N - s.board.fullmove_number).toNat
          + (if s.board.turn then 1 else 0) < fuel →
      (run_game_loop db engine gens rands fuel s).1 ≠ none := by
  intro fuel
  induction fuel with
  | zero =>
    intro rands s hm
    exact absurd hm (Nat.not_lt_zero _)
  | succ fuel ih =>
    intro rands s hm
    cases hget : (get_move db (gens s.player_to_move) s.board (rands 0)).1 with
    | ok move =>
      rw [run_game_loop_succ_ok hget]
      have hlt : s.board.fullmove_number < N := by
        by_contra hge
        push_neg at hge
        obtain ⟨mm, hmm, h5⟩ := hdb s.board hge
        rw [get_move_master_exhausted hmm h5] at hget
        cases hget
      apply ih (fun k => rands (k + 1)) (apply_move engine s move)
      simp only [apply_move, board_push]
      by_cases hturn : s.board.turn
      · simp only [hturn] at hm ⊢
        simp at hm ⊢
        omega
      · simp only [Bool.not_eq_true] at hturn
        simp only [hturn] at hm ⊢
        simp at hm ⊢
        omega
    | error e =>
      cases e with
      | outOfBook => rw [run_game_loop_succ_oob hget]; simp
      | queryFailure => rw [run_game_loop_succ_err (by simp) hget]; simp
      | valueError => rw [run_game_loop_succ_err (by simp) hget]; simp

/-- C8: if positions deep enough (by full-move number) are always reported
by the master database with fewer than 5 aggregate games — both generators
then raise `OutOfBook` there, since the master-book guard fires regardless
of the profile — the `run_game` loop always terminates: some finite fuel
suffices, so the unbounded `while True` cannot loop forever. -/
theorem run_game_terminates (db : DbOracle) (engine : RulesEngine)
    (FEN db_speed db_rating : String) (rands : ℕ → ℕ)
    (hdb : ∃ N : ℤ, ∀ b : Board, N ≤ b.fullmove_number →
      ∃ mm, db DbSource.masters b.fen = Except.ok mm ∧ totalGames mm < 5) :
    ∃ fuel, (run_game db engine FEN db_speed db_rating rands fuel).1 ≠ none := by
  obtain ⟨N, hN⟩ := hdb
  refine ⟨2 * (N - (engine.parse_fen FEN).fullmove_number).toNat + 2, ?_⟩
  simp only [run_game]
  apply run_game_loop_total db engine _ N hN
  by_cases hturn : (engine.parse_fen FEN).turn
  · simp only [hturn]
    simp
  · simp only [Bool.not_eq_true] at hturn
    simp only [hturn]
    simp

theorem run_game_terminates_witness :
    ∃ fuel, (run_game wdbEmpty wengine "f" "rapid" "2000" (fun _ => 0) fuel).1 ≠ none :=
  run_game_terminates wdbEmpty wengine "f" "rapid" "2000" (fun _ => 0)
    ⟨0, fun b _ => ⟨[], rfl, by decide⟩⟩

/-- The sample-collection loop of `analyze_fen`: `games i` is the outcome
of the `i`-th call of `run_game` — `Except.ok board` for a normal return
(`board, _ = run_game(...)`), `Except.error ()` for any exception, which
the bare `except:` handler logs before breaking out of the loop.  Each
successful iteration appends `board.fullmove_number - 1`; the loop runs
while fewer than `num_games` samples have been collected. -/
def collect_depths (games : ℕ → Except Unit Board) : ℕ → ℕ → List ℤ
  | 0, _ => []
  | n + 1, i =>
    match games i with
    | Except.ok board => (board.fullmove_number - 1) :: collect_depths games n (i + 1)
    | Except.error _ => []

/-- `analyze_fen` after option handling: collect up to `num_games` depth
samples, print the list, then print `sum(depths) / len(depths)`.  The mean
is `none` when no sample was collected — the unhandled `ZeroDivisionError`
— and is otherwise the exact rational mean (the script uses float
division; the value claims here concern only whether it is produced). -/
def analyze_fen (games : ℕ → Except Unit Board) (num_games : ℕ) :
    List ℤ × Option ℚ :=
  let depths := collect_depths games num_games 0
  (depths,
    if depths.length = 0 then none
    else some ((depths.sum : ℚ) / (depths.length : ℚ)))

/-- C3: every depth sample recorded by the driver is the final position's
full-move number minus one for the corresponding terminated game: the
`j`-th collected sample (counting from start index `i`) comes from game
`i + j` and equals its final board's `fullmove_number - 1`. -/
theorem depth_sample_spec (games : ℕ → Except Unit Board) :
    ∀ n i j d, (collect_depths games n i).get? j = some d →
      ∃ board, games (i + j) = Except.ok board
        ∧ d = board.fullmove_number - 1 := by
  intro n
  induction n with
  | zero =>
    intro i j d h
    simp [collect_depths] at h
  | succ n ih =>
    intro i j d h
    cases hg : games i with
    | ok board =>
      rw [collect_depths, hg] at h
      cases j with
      | zero =>
        refine ⟨board, by simpa using hg, ?_⟩
        simpa using h.symm
      | succ j =>
        have hj : (collect_depths games n (i + 1)).get? j = some d := by simpa using h
        obtain ⟨b, hb, hd⟩ := ih (i + 1) j d hj
        refine ⟨b, ?_, hd⟩
        have harith : i + (j + 1) = (i + 1) + j := by omega
        rw [harith]
        exact hb
    | error e =>
      rw [collect_depths, hg] at h
      simp at h

/-- Games stream used to exercise the driver theorems on concrete input:
game `k` ends normally on a board whose full-move number is `k + 3`. -/
def wgames : ℕ → Except Unit Board :=
  fun k => Except.ok ⟨"f", true, (k : ℤ) + 3⟩

theorem depth_sample_spec_witness :
    ∃ board, wgames (0 + 1) = Except.ok board
      ∧ (3 : ℤ) = board.fullmove_number - 1 :=
  depth_sample_spec wgames 2 0 1 3 rfl

lemma collect_depths_length_full (games : ℕ → Except Unit Board) :
    ∀ n i, (∀ j, i ≤ j → j < i + n → ∃ b, games j = Except.ok b) →
      (collect_depths games n i).length = n := by
  intro n
  induction n with
  | zero => intro i _; rfl
  | succ n ih =>
    intro i h
    obtain ⟨b, hb⟩ := h i (le_refl _) (by omega)
    rw [collect_depths, hb]
    simp only [List.length_cons]
    rw [ih (i + 1) (fun j h1 h2 => h j (by omega) (by omega))]

lemma collect_depths_length_stop (games : ℕ → Except Unit Board) :
    ∀ n i k, k < n → (∀ j, i ≤ j → j < i + k → ∃ b, games j = Except.ok b) →
      games (i + k) = Except.error () →
      (collect_depths games n i).length = k := by
  intro n
  induction n with
  | zero => intro i k hk; omega
  | succ n ih =>
    intro i k hk hok herr
    cases k with
    | zero =>
      have hi : games i = Except.error () := by simpa using herr
      rw [collect_depths, hi]
      rfl
    | succ k =>
      obtain ⟨b, hb⟩ := hok i (le_refl _) (by omega)
      rw [collect_depths, hb]
      simp only [List.length_cons]
      rw [ih (i + 1) k (by omega) (fun j h1 h2 => hok j (by omega) (by omega))
        (by have harith : (i + 1) + k = i + (k + 1) := by omega
            rw [harith]; exact herr)]

/-- C5: the driver collects samples until the target count is reached when
every game returns normally; on the first unrecoverable error it aborts
early yet still produces the partial sample list collected so far; the
mean is produced exactly when at least one sample was collected, the
zero-sample case being the unhandled division by zero (`none`); and when
produced, the mean is the sample sum divided by the sample count. -/
theorem analyze_fen_driver_spec (games : ℕ → Except Unit Board) (num_games : ℕ) :
    ((∀ j, j < num_games → ∃ b, games j = Except.ok b) →
      (analyze_fen games num_games).1.length = num_games)
    ∧ (∀ k, k < num_games → (∀ j, j < k → ∃ b, games j = Except.ok b) →
        games k = Except.error () →
        (analyze_fen games num_games).1.length = k)
    ∧ ((analyze_fen games num_games).2 = none ↔ (analyze_fen games num_games).1 = [])
    ∧ ((analyze_fen games num_games).1 ≠ [] →
        (analyze_fen games num_games).2
          = some (((analyze_fen games num_games).1.sum : ℚ)
              / ((analyze_fen games num_games).1.length : ℚ))) := by
  refine ⟨?_, ?_, ?_, ?_⟩
  · intro h
    exact collect_depths_length_full games num_games 0
      (fun j h1 h2 => h j (by omega))
  · intro k hk hok herr
    exact collect_depths_length_stop games num_games 0 k hk
      (fun j h1 h2 => hok j (by omega)) (by simpa using herr)
  · simp only [analyze_fen]
    by_cases hlen : (collect_depths games num_games 0).length = 0
    · simp [hlen, List.length_eq_zero.mp hlen]
    · simp [hlen, List.length_eq_zero.not.mp hlen]
  · intro hne
    simp only [analyze_fen] at hne ⊢
    have hlen : (collect_depths games num_games 0).length ≠ 0 := by
      intro h0
      exact hne (List.length_eq_zero.mp h0)
    rw [if_neg hlen]

/-- Games stream whose third game raises an unrecoverable error: the first
two games return normally, game 2 fails. -/
def wgamesErr : ℕ → Except Unit Board :=
  fun k => if k < 2 then Except.ok ⟨"f", true, 4⟩ else Except.error ()

theorem analyze_fen_driver_spec_witness :
    (analyze_fen wgamesErr 5).1.length = 2 :=
  (analyze_fen_driver_spec wgamesErr 5).2.1 2 (by omega)
    (fun j hj => ⟨⟨"f", true, 4⟩, by simp [wgamesErr, hj]⟩) rfl
